import Mathlib

/-!
Verification of the LingoLog history / analysis core (src/index.tsx).

The TypeScript source is shallowly embedded below.  React state updates are
modelled as pure functions from the current application state (plus the
outcome of the external model call and the current clock value) to the next
application state; the external generative-model gateway is modelled as an
`Except` value handed to the handler, and `Date.now()` as an explicit `Nat`
argument.  Persistence (`JSON.stringify` / `JSON.parse` over
`localStorage`) is modelled at the level of parsed JSON values by the
`Json` inductive.
-/

namespace LingoLog

/-- Embedding of the TS interface `GrammarPoint` (src/index.tsx lines 22-25). -/
structure GrammarPoint where
  pattern : String
  explanation : String
deriving DecidableEq

/-- Embedding of the TS interface `VocabularyItem` (src/index.tsx lines 27-32). -/
structure VocabularyItem where
  word : String
  reading : String
  meaning : String
  partOfSpeech : String
deriving DecidableEq

/-- Embedding of the TS interface `AnalysisResult` (src/index.tsx lines 34-42).
The `timestamp` is the millisecond clock value (`Date.now()`), modelled as `Nat`. -/
structure AnalysisResult where
  id : String
  timestamp : Nat
  original : String
  translation : String
  language : String
  grammarPoints : List GrammarPoint
  vocabulary : List VocabularyItem
deriving DecidableEq

/-- Embedding of the TS interface `QaResult` (src/index.tsx lines 44-50);
`relatedSentence` is optional there, hence `Option String`. -/
structure QaResult where
  id : String
  timestamp : Nat
  question : String
  answer : String
  relatedSentence : Option String
deriving DecidableEq

/-- The payload produced by `analyzeSentence` (src/index.tsx line 60): the TS
return type is `Omit<AnalysisResult, 'id' | 'timestamp'>`, which still contains
an `original` field even though the declared response schema does not request
one; `handleAnalyze` overwrites it via the spread `{...result, original: text}`. -/
structure AnalysisPayload where
  original : String
  translation : String
  language : String
  grammarPoints : List GrammarPoint
  vocabulary : List VocabularyItem
deriving DecidableEq

/-- The entry type of the dictionary view: a `VocabularyItem` spread together
with the language of the record it came from
(`{ ...v, language: item.language }`, src/index.tsx line 547). -/
structure VocabEntry where
  word : String
  reading : String
  meaning : String
  partOfSpeech : String
  language : String
deriving DecidableEq

/-- The failure modes of a model call: missing API key (src/index.tsx line 56),
a rejected network call, an empty analysis response (line 106) and a JSON body
that does not parse (line 108).  Which error occurred never matters to the
handlers: every thrown error takes the same catch path. -/
inductive ModelError where
  | config
  | service
  | emptyResponse
  | malformed
deriving DecidableEq

/-- The mutable application state of `App` (src/index.tsx lines 625-629):
the busy flag `isAnalyzing`, the history list (newest first) and the current
tutor answer. -/
structure AppState where
  isAnalyzing : Bool
  history : List AnalysisResult
  qaResult : Option QaResult
deriving DecidableEq

/-- The record constructed by `handleAnalyze` on success (src/index.tsx lines
652-657): `{...result, id: Date.now().toString(), timestamp: Date.now(),
original: text}`.  `Date.now()` is the explicit argument `now`;
`.toString()` on a JS integer is decimal rendering, i.e. `Nat.repr`.  The
spread is overridden, so `payload.original` is discarded in favour of `text`. -/
def mkFullResult (payload : AnalysisPayload) (text : String) (now : Nat) : AnalysisResult :=
  { id := Nat.repr now
    timestamp := now
    original := text
    translation := payload.translation
    language := payload.language
    grammarPoints := payload.grammarPoints
    vocabulary := payload.vocabulary }

/-- Net state transition of one `handleAnalyze` call (src/index.tsx lines
648-666).  `outcome` is the result of `await analyzeSentence(text)`: on
success the new record is prepended (`setHistory(prev => [fullResult,
...prev])`); on any thrown error only an alert is shown.  The `finally`
block clears the busy flag in both cases. -/
def handleAnalyze (outcome : Except ModelError AnalysisPayload) (text : String) (now : Nat)
    (s : AppState) : AppState :=
  match outcome with
  | .ok payload =>
      { s with history := mkFullResult payload text now :: s.history, isAnalyzing := false }
  | .error _ => { s with isAnalyzing := false }

/-- Net state transition of one `handleAskTutor` call (src/index.tsx lines
668-686).  The context sentence is `history[0].original` when the history is
non-empty; on success a fresh `QaResult` replaces the current one, on error
only an alert is shown; the `finally` block clears the busy flag. -/
def handleAskTutor (outcome : Except ModelError String) (question : String) (now : Nat)
    (s : AppState) : AppState :=
  match outcome with
  | .ok answer =>
      { s with
        qaResult := some
          { id := Nat.repr now
            timestamp := now
            question := question
            answer := answer
            relatedSentence := s.history.head?.map fun r => r.original }
        isAnalyzing := false }
  | .error _ => { s with isAnalyzing := false }

/-- The list-level removal performed by `handleDelete` (src/index.tsx line
690): `prev.filter(item => item.id !== id)`. -/
def removeRecord (hist : List AnalysisResult) (targetId : String) : List AnalysisResult :=
  hist.filter fun item => item.id != targetId

/-- Net state transition of `handleDelete` (src/index.tsx lines 688-692);
`ok` is the result of the `confirm(...)` dialog guarding the removal. -/
def handleDelete (ok : Bool) (targetId : String) (s : AppState) : AppState :=
  if ok then { s with history := removeRecord s.history targetId } else s

/-- Embedding of `response.text || "I couldn't generate an answer."`
(src/index.tsx line 125): the SDK `text` field is absent (`none`) or a
string; both `undefined` and the empty string are falsy in JS, so either
yields the fallback string. -/
def orFallback (text : Option String) : String :=
  match text with
  | none => "I couldn\x27t generate an answer."
  | some t => if t = "" then "I couldn\x27t generate an answer." else t

/-- End-to-end result of `askTutor` (src/index.tsx lines 111-126) as seen by
the caller: a failure of `getAI` or of the model call propagates (the
function has no try/catch), and a delivered response body is passed through
`orFallback` and returned as a success. -/
def askTutor (gateway : Except ModelError (Option String)) : Except ModelError String :=
  match gateway with
  | .error e => .error e
  | .ok t => .ok (orFallback t)

/-- Numeric value of a decimal digit character. -/
def charVal (c : Char) : Nat := c.toNat - 48

/-- Decimal decoding of a digit list, most significant digit first. -/
def decodeDigits (l : List Char) : Nat :=
  l.foldl (fun a c => a * 10 + charVal c) 0

/-- Decimal decoding of a string, used to read back the numeric value of a
record id produced by `Date.now().toString()`. -/
def decodeDecimal (s : String) : Nat := decodeDigits s.data

/-- The dictionary flattening step (src/index.tsx line 547):
`items.flatMap(item => item.vocabulary.map(v => ({...v, language:
item.language})))`.  Records are passed in history order, newest first. -/
def tagVocab (items : List AnalysisResult) : List VocabEntry :=
  items.flatMap fun item =>
    item.vocabulary.map fun v =>
      { word := v.word
        reading := v.reading
        meaning := v.meaning
        partOfSpeech := v.partOfSpeech
        language := item.language }

/-- One step of the dedupe reducer (src/index.tsx lines 548-553):
`if (!acc.some(v => v.word === curr.word)) acc.push(curr)`. -/
def dedupeStep (acc : List VocabEntry) (curr : VocabEntry) : List VocabEntry :=
  if acc.any fun v => v.word == curr.word then acc else acc ++ [curr]

/-- The dedupe reduce over the flattened vocabulary (src/index.tsx lines
548-553): keeps the first occurrence of each word, i.e. the occurrence from
the newest record, since the input is newest first. -/
def dedupeVocab (l : List VocabEntry) : List VocabEntry :=
  l.foldl dedupeStep []

/-- The full `allVocab` computation of `DictionaryTab` (src/index.tsx lines
546-554): flatten, dedupe by word, then `.sort((a, b) =>
a.word.localeCompare(b.word))`.  The locale-aware comparator is abstract
here: `le` is the Boolean order induced by the comparator, and JS
`Array.prototype.sort` with a consistent comparator is modelled by a stable
merge sort. -/
def allVocab (le : String → String → Bool) (items : List AnalysisResult) : List VocabEntry :=
  (dedupeVocab (tagVocab items)).mergeSort fun a b => le a.word b.word

/-- Model of JS `String.prototype.toLowerCase`: lowercase each character. -/
def lowerStr (s : String) : String := ⟨s.data.map Char.toLower⟩

/-- Character-list test for `pat` occurring at the start of `l`. -/
def leadsWith : List Char → List Char → Bool
  | [], _ => true
  | _ :: _, [] => false
  | p :: ps, c :: cs => p == c && leadsWith ps cs

/-- Character-list model of JS `String.prototype.includes`: `pat` occurs
contiguously somewhere in `l` (the empty pattern always occurs). -/
def includesList (pat : List Char) : List Char → Bool
  | [] => pat.isEmpty
  | c :: cs => leadsWith pat (c :: cs) || includesList pat cs

/-- Model of JS `s.includes(pat)` on strings. -/
def strIncludes (s pat : String) : Bool := includesList pat.data s.data

/-- The search predicate of `DictionaryTab` (src/index.tsx lines 556-560):
case-insensitive substring match of the term against word, meaning or
reading, in source order. -/
def matchesTerm (term : String) (v : VocabEntry) : Bool :=
  strIncludes (lowerStr v.word) (lowerStr term) ||
  strIncludes (lowerStr v.meaning) (lowerStr term) ||
  strIncludes (lowerStr v.reading) (lowerStr term)

/-- The dictionary filter (src/index.tsx lines 556-560):
`allVocab.filter(v => ...)`. -/
def filterVocab (entries : List VocabEntry) (term : String) : List VocabEntry :=
  entries.filter (matchesTerm term)

/-- Parsed JSON values, the codomain of `JSON.parse`; `null` and booleans
never occur in the snapshot format and are omitted. -/
inductive Json where
  | str (s : String)
  | num (n : Nat)
  | arr (elements : List Json)
  | obj (fields : List (String × Json))

/-- Serialization of a `GrammarPoint` as written by `JSON.stringify`. -/
def serializeGrammarPoint (g : GrammarPoint) : Json :=
  .obj [("pattern", .str g.pattern), ("explanation", .str g.explanation)]

/-- Serialization of a `VocabularyItem` as written by `JSON.stringify`. -/
def serializeVocabularyItem (v : VocabularyItem) : Json :=
  .obj [("word", .str v.word), ("reading", .str v.reading),
        ("meaning", .str v.meaning), ("partOfSpeech", .str v.partOfSpeech)]

/-- Serialization of one `AnalysisResult` as written by `JSON.stringify`
(field order follows the construction of `fullResult`, src/index.tsx lines
652-657: the spread payload fields first, then id, timestamp, original). -/
def serializeRecord (r : AnalysisResult) : Json :=
  .obj [("translation", .str r.translation),
        ("language", .str r.language),
        ("grammarPoints", .arr (r.grammarPoints.map serializeGrammarPoint)),
        ("vocabulary", .arr (r.vocabulary.map serializeVocabularyItem)),
        ("id", .str r.id),
        ("timestamp", .num r.timestamp),
        ("original", .str r.original)]

/-- The snapshot written to `localStorage` on every history change
(src/index.tsx line 645): `JSON.stringify(history)`. -/
def serializeHistory (hist : List AnalysisResult) : Json :=
  .arr (hist.map serializeRecord)

/-- Lookup of an object field by key (JS property access on a parsed
object). -/
def getField (fields : List (String × Json)) (key : String) : Option Json :=
  match fields with
  | [] => none
  | (k, v) :: rest => if k = key then some v else getField rest key

/-- Reading a JSON value as a string. -/
def decodeString : Json → Option String
  | .str s => some s
  | _ => none

/-- Reading a JSON value as a number. -/
def decodeNum : Json → Option Nat
  | .num n => some n
  | _ => none

/-- Reading back a `GrammarPoint` from its snapshot form. -/
def decodeGrammarPoint : Json → Option GrammarPoint
  | .obj fields => do
      let p ← getField fields "pattern" >>= decodeString
      let e ← getField fields "explanation" >>= decodeString
      pure { pattern := p, explanation := e }
  | _ => none

/-- Reading back a `VocabularyItem` from its snapshot form. -/
def decodeVocabularyItem : Json → Option VocabularyItem
  | .obj fields => do
      let w ← getField fields "word" >>= decodeString
      let rd ← getField fields "reading" >>= decodeString
      let m ← getField fields "meaning" >>= decodeString
      let pos ← getField fields "partOfSpeech" >>= decodeString
      pure { word := w, reading := rd, meaning := m, partOfSpeech := pos }
  | _ => none

/-- Reading back a list of values from a JSON array body. -/
def decodeList (f : Json → Option α) : List Json → Option (List α)
  | [] => some []
  | j :: js => do
      let a ← f j
      let as ← decodeList f js
      pure (a :: as)

/-- Reading back one `AnalysisResult` from its snapshot form. -/
def decodeRecord : Json → Option AnalysisResult
  | .obj fields => do
      let rid ← getField fields "id" >>= decodeString
      let ts ← getField fields "timestamp" >>= decodeNum
      let orig ← getField fields "original" >>= decodeString
      let tr ← getField fields "translation" >>= decodeString
      let lang ← getField fields "language" >>= decodeString
      let gsJson ← getField fields "grammarPoints"
      let gs ← match gsJson with
        | .arr js => decodeList decodeGrammarPoint js
        | _ => none
      let vsJson ← getField fields "vocabulary"
      let vs ← match vsJson with
        | .arr js => decodeList decodeVocabularyItem js
        | _ => none
      pure { id := rid, timestamp := ts, original := orig, translation := tr,
             language := lang, grammarPoints := gs, vocabulary := vs }
  | _ => none

/-- Reading back the whole history snapshot: the interpretation of a parsed
snapshot value as a typed record list (the shape that `JSON.parse` of a
stringified history always has). -/
def deserializeHistory : Json → Option (List AnalysisResult)
  | .arr js => decodeList decodeRecord js
  | _ => none

/-- The three possible outcomes of `localStorage.getItem` followed by
`JSON.parse` at startup (src/index.tsx lines 632-641): the key is missing
(`getItem` returned null), the stored text is not syntactically valid JSON
(`JSON.parse` threw), or parsing succeeded with some JSON value. -/
inductive LoadOutcome where
  | missing
  | invalid
  | parsed (j : Json)

/-- The dynamically-typed history value held by the component after the
startup load effect (src/index.tsx lines 632-641).  The initial state is the
empty array; a missing key skips the load, a parse exception is caught and
only logged, and a successfully parsed value is installed by `setHistory`
verbatim — the source performs no shape validation on it. -/
def loadHistory (saved : LoadOutcome) : Json :=
  match saved with
  | .missing => .arr []
  | .invalid => .arr []
  | .parsed j => j

/-- Concrete Boolean comparator on words, standing in for the locale
comparator at one particular locale when instantiating the abstract order. -/
def strLe (a b : String) : Bool := decide (a ≤ b)

/-- Sample grammar point for concrete instantiations. -/
def sampleGrammar : GrammarPoint :=
  { pattern := "wa", explanation := "topic marker" }

/-- Sample vocabulary item for concrete instantiations. -/
def sampleVocabNeko : VocabularyItem :=
  { word := "neko", reading := "ねこ", meaning := "cat", partOfSpeech := "noun" }

/-- A different vocabulary item with the same word, for duplicate-word
scenarios. -/
def sampleVocabNekoOld : VocabularyItem :=
  { word := "neko", reading := "neko", meaning := "a cat", partOfSpeech := "n" }

/-- Sample vocabulary item for concrete instantiations. -/
def sampleVocabInu : VocabularyItem :=
  { word := "inu", reading := "いぬ", meaning := "dog", partOfSpeech := "noun" }

/-- Sample record (the newer one in two-record scenarios). -/
def sampleRecord1 : AnalysisResult :=
  { id := "7", timestamp := 7, original := "猫", translation := "cat",
    language := "Japanese", grammarPoints := [sampleGrammar],
    vocabulary := [sampleVocabNeko, sampleVocabInu] }

/-- Sample record (the older one in two-record scenarios); its vocabulary
shares the word "neko" with `sampleRecord1` but carries different data. -/
def sampleRecord2 : AnalysisResult :=
  { id := "3", timestamp := 3, original := "x", translation := "y",
    language := "Spanish", grammarPoints := [], vocabulary := [sampleVocabNekoOld] }

/-- Sample analysis payload for concrete instantiations. -/
def samplePayload : AnalysisPayload :=
  { original := "", translation := "the cat sleeps", language := "Japanese",
    grammarPoints := [sampleGrammar], vocabulary := [sampleVocabNeko] }

/-- The dictionary entry that `sampleVocabNeko` contributes when it comes
from `sampleRecord1`. -/
def sampleEntryNeko : VocabEntry :=
  { word := "neko", reading := "ねこ", meaning := "cat", partOfSpeech := "noun",
    language := "Japanese" }

/-- Claim C1: appending a valid analysis payload with original text `text` to the
history prepends a record whose `original` equals `text` and whose
translation, language, grammar points and vocabulary are exactly the
payload fields, leaving every previously stored record unchanged in content
and relative order. -/
theorem append_prepends_payload_exactly (payload : AnalysisPayload) (text : String)
    (now : Nat) (s : AppState) :
    (handleAnalyze (.ok payload) text now s).history
      = mkFullResult payload text now :: s.history
    ∧ (mkFullResult payload text now).original = text
    ∧ (mkFullResult payload text now).translation = payload.translation
    ∧ (mkFullResult payload text now).language = payload.language
    ∧ (mkFullResult payload text now).grammarPoints = payload.grammarPoints
    ∧ (mkFullResult payload text now).vocabulary = payload.vocabulary :=
  ⟨rfl, rfl, rfl, rfl, rfl, rfl⟩

/-- Claim C7: when the model call of an analysis operation fails (in particular
with a service error), the history is exactly what it was before the
operation — no record, whole or fragmentary, is appended — and the busy
flag ends up cleared. -/
theorem failed_analysis_leaves_history_unchanged (e : ModelError) (text : String)
    (now : Nat) (s : AppState) :
    (handleAnalyze (.error e) text now s).history = s.history
    ∧ (handleAnalyze (.error e) text now s).isAnalyzing = false :=
  ⟨rfl, rfl⟩

/-- Claim C10: when a tutor query fails, the current tutor answer is retained
unchanged (as is the history) and only the busy flag is reset. -/
theorem failed_tutor_query_preserves_answer (e : ModelError) (question : String)
    (now : Nat) (s : AppState) :
    (handleAskTutor (.error e) question now s).qaResult = s.qaResult
    ∧ (handleAskTutor (.error e) question now s).history = s.history
    ∧ (handleAskTutor (.error e) question now s).isAnalyzing = false :=
  ⟨rfl, rfl, rfl⟩

/-- Claim C3 counterexample: an empty or absent tutor response body does NOT
surface as a failure — `askTutor` succeeds with the hard-coded fallback
string instead of failing. -/
theorem empty_tutor_text_is_fallback_success :
    askTutor (.ok (some "")) = .ok "I couldn\x27t generate an answer."
    ∧ askTutor (.ok none) = .ok "I couldn\x27t generate an answer." :=
  ⟨rfl, rfl⟩

/-- Claim C3 amended: a non-empty tutor response is passed through unchanged; an
empty or absent response yields the fallback string as a SUCCESS (no
empty-response failure exists); only gateway errors surface as failures. -/
theorem tutor_answer_passthrough_or_fallback (raw : String) (h : raw ≠ "")
    (e : ModelError) :
    askTutor (.ok (some raw)) = .ok raw
    ∧ askTutor (.ok (some "")) = .ok "I couldn\x27t generate an answer."
    ∧ askTutor (.ok none) = .ok "I couldn\x27t generate an answer."
    ∧ askTutor (.error e) = .error e := by
  refine ⟨?_, rfl, rfl, rfl⟩
  simp [askTutor, orFallback, h]

/-- Witness for the amended C3 theorem at a concrete non-empty response. -/
theorem tutor_answer_passthrough_or_fallback_witness :
    "hello" ≠ "" ∧ askTutor (.ok (some "hello")) = .ok "hello" :=
  ⟨by decide, (tutor_answer_passthrough_or_fallback "hello" (by decide) .service).1⟩

/-- Claim C9 counterexample: a persisted snapshot that is syntactically valid
JSON but NOT interpretable as a history (here the number 42, rejected by
`deserializeHistory`) is installed verbatim at startup instead of being
replaced by the empty history. -/
theorem incompatible_snapshot_installed_verbatim :
    loadHistory (.parsed (.num 42)) = Json.num 42
    ∧ deserializeHistory (Json.num 42) = none
    ∧ loadHistory (.parsed (.num 42)) ≠ Json.arr [] :=
  ⟨rfl, rfl, fun h => Json.noConfusion h⟩

/-- Claim C9 amended: when the snapshot is missing or is not syntactically valid
JSON (the parse throws, the exception is caught and only logged), the
history stays the empty array and startup continues; shape
validation of a successfully parsed value is not performed. -/
theorem invalid_snapshot_falls_back_to_empty :
    loadHistory .invalid = Json.arr [] ∧ loadHistory .missing = Json.arr [] :=
  ⟨rfl, rfl⟩

/-- Folding the decimal accumulator from an arbitrary start value. -/
theorem foldl_decode_shift (l : List Char) (x : Nat) :
    l.foldl (fun a c => a * 10 + charVal c) x
      = x * 10 ^ l.length + l.foldl (fun a c => a * 10 + charVal c) 0 := by
  induction l generalizing x with
  | nil => simp
  | cons c t ih =>
      simp only [List.foldl_cons, List.length_cons]
      rw [ih (x * 10 + charVal c), ih (0 * 10 + charVal c)]
      ring

/-- Decimal decode of a cons cell. -/
theorem decodeDigits_cons (c : Char) (t : List Char) :
    decodeDigits (c :: t) = charVal c * 10 ^ t.length + decodeDigits t := by
  simp only [decodeDigits, List.foldl_cons]
  rw [foldl_decode_shift]
  ring_nf

/-- The digit character of a decimal digit decodes back to that digit. -/
theorem charVal_digitChar (d : Nat) (h : d < 10) : charVal (Nat.digitChar d) = d := by
  interval_cases d <;> rfl

/-- Correctness of the fuelled digit-rendering loop underlying `Nat.repr`:
with sufficient fuel, decoding the rendered digits prepended to `acc`
recovers the number in the corresponding decimal position. -/
theorem decode_toDigitsCore :
    ∀ (f n : Nat), n < f → ∀ (acc : List Char),
      decodeDigits (Nat.toDigitsCore 10 f n acc)
        = n * 10 ^ acc.length + decodeDigits acc := by
  intro f
  induction f with
  | zero => intro n h; omega
  | succ f ih =>
      intro n h acc
      rw [Nat.toDigitsCore]
      by_cases h0 : n / 10 = 0
      · rw [if_pos h0]
        rw [decodeDigits_cons, charVal_digitChar _ (by omega)]
        have hn : n % 10 = n := by omega
        rw [hn]
      · rw [if_neg h0]
        rw [ih (n / 10) (by omega) (Nat.digitChar (n % 10) :: acc)]
        rw [decodeDigits_cons, charVal_digitChar _ (by omega)]
        have hmod : 10 * (n / 10) + n % 10 = n := Nat.div_add_mod n 10
        simp only [List.length_cons]
        calc n / 10 * 10 ^ (acc.length + 1) + (n % 10 * 10 ^ acc.length + decodeDigits acc)
            = (10 * (n / 10) + n % 10) * 10 ^ acc.length + decodeDigits acc := by ring
          _ = n * 10 ^ acc.length + decodeDigits acc := by rw [hmod]

/-- Decimal decoding is a left inverse of the decimal rendering used for
record ids. -/
theorem decodeDecimal_repr (n : Nat) : decodeDecimal (Nat.repr n) = n := by
  show decodeDigits (Nat.toDigitsCore 10 (n + 1) n []) = n
  rw [decode_toDigitsCore (n + 1) n (Nat.lt_succ_self n) []]
  simp [decodeDigits]

/-- Claim C2 counterexample: two distinct append operations that happen at the
same millisecond (`Date.now()` returns 5 both times) produce two records
with the SAME id. -/
theorem same_millisecond_appends_share_id :
    ((handleAnalyze (.ok samplePayload) "a" 5
        (handleAnalyze
          (.ok { original := "", translation := "y", language := "French",
                 grammarPoints := [], vocabulary := [] }) "b" 5
          { isAnalyzing := false, history := [], qaResult := none })).history.map
      fun r => r.id) = ["5", "5"] :=
  rfl

/-- Claim C2 amended: records created by append operations at strictly increasing
clock values have distinct ids, and both the stored timestamps and the
numeric values of the decimal ids are ordered consistently with creation
order. -/
theorem ids_distinct_for_increasing_clock (p q : AnalysisPayload) (x y : String)
    (t1 t2 : Nat) (h : t1 < t2) :
    (mkFullResult p x t1).id ≠ (mkFullResult q y t2).id
    ∧ (mkFullResult p x t1).timestamp < (mkFullResult q y t2).timestamp
    ∧ decodeDecimal (mkFullResult p x t1).id < decodeDecimal (mkFullResult q y t2).id := by
  have h1 : decodeDecimal (mkFullResult p x t1).id = t1 := decodeDecimal_repr t1
  have h2 : decodeDecimal (mkFullResult q y t2).id = t2 := decodeDecimal_repr t2
  refine ⟨fun he => ?_, h, ?_⟩
  · have hc := congrArg decodeDecimal he
    rw [h1, h2] at hc
    omega
  · rw [h1, h2]
    exact h

/-- Witness for the amended C2 theorem at clock values 3 and 7. -/
theorem ids_distinct_for_increasing_clock_witness :
    (3 : Nat) < 7
    ∧ (mkFullResult samplePayload "a" 3).id ≠ (mkFullResult samplePayload "b" 7).id :=
  ⟨by omega, (ids_distinct_for_increasing_clock samplePayload samplePayload "a" "b" 3 7
    (by omega)).1⟩

/-- Filtering out an id that occurs nowhere in the history is the identity. -/
theorem removeRecord_not_mem (hist : List AnalysisResult) (targetId : String)
    (h : targetId ∉ hist.map fun r => r.id) : removeRecord hist targetId = hist := by
  induction hist with
  | nil => rfl
  | cons a t ih =>
      simp only [List.map_cons, List.mem_cons, not_or] at h
      have ha : (a.id != targetId) = true := bne_iff_ne.mpr fun hh => h.1 hh.symm
      simp only [removeRecord] at ih ⊢
      rw [List.filter_cons, if_pos ha, ih h.2]

/-- Removal of an id that occurs in a duplicate-free history drops exactly
one record and leaves the id absent. -/
theorem removeRecord_existing (hist : List AnalysisResult) (targetId : String) :
    (hist.map fun r => r.id).Nodup → targetId ∈ hist.map (fun r => r.id) →
    (removeRecord hist targetId).length + 1 = hist.length
    ∧ targetId ∉ (removeRecord hist targetId).map fun r => r.id := by
  induction hist with
  | nil => intro _ hmem; simp at hmem
  | cons a t ih =>
      intro hnd hmem
      simp only [List.map_cons, List.nodup_cons] at hnd
      by_cases hid : a.id = targetId
      · have hnot : targetId ∉ t.map fun r => r.id := hid ▸ hnd.1
        have hskip : (a.id != targetId) = false := by simp [hid]
        have hstep : removeRecord (a :: t) targetId = removeRecord t targetId := by
          simp only [removeRecord, List.filter_cons, hskip]
          rfl
        rw [hstep, removeRecord_not_mem t targetId hnot]
        exact ⟨rfl, hnot⟩
      · have hkeep : (a.id != targetId) = true := bne_iff_ne.mpr hid
        have hstep : removeRecord (a :: t) targetId = a :: removeRecord t targetId := by
          simp only [removeRecord, List.filter_cons, hkeep]
          rfl
        have hmem' : targetId ∈ t.map fun r => r.id := by
          rcases List.mem_cons.mp hmem with h | h
          · exact absurd h.symm hid
          · exact h
        obtain ⟨hlen, habs⟩ := ih hnd.2 hmem'
        rw [hstep]
        refine ⟨?_, ?_⟩
        · simp only [List.length_cons]
          omega
        · simp only [List.map_cons, List.mem_cons, not_or]
          exact ⟨fun hh => hid hh.symm, habs⟩

/-- Claim C4: on a history whose ids are pairwise distinct (the History Store is
uniquely keyed by id), removing an existing id shrinks the sequence by
exactly one and that id is absent afterwards; removing a non-existent id
leaves the store unchanged (no removal occurs).  The confirmed branch of
`handleDelete` performs exactly this removal on the application state. -/
theorem remove_spec (hist : List AnalysisResult) (targetId : String)
    (hnd : (hist.map fun r => r.id).Nodup) :
    (targetId ∈ hist.map (fun r => r.id) →
      (removeRecord hist targetId).length + 1 = hist.length
      ∧ targetId ∉ (removeRecord hist targetId).map fun r => r.id)
    ∧ (targetId ∉ hist.map (fun r => r.id) → removeRecord hist targetId = hist)
    ∧ ∀ s : AppState, s.history = hist →
        (handleDelete true targetId s).history = removeRecord hist targetId := by
  refine ⟨removeRecord_existing hist targetId hnd, removeRecord_not_mem hist targetId,
    fun s hs => ?_⟩
  rw [handleDelete, if_pos rfl, hs]

/-- Witness for the C4 theorem on a concrete two-record history: removing
the existing id "3" shrinks the history from two records to one and "3" is
gone; removing the absent id "9" is the identity. -/
theorem remove_spec_witness :
    (([sampleRecord1, sampleRecord2].map fun r => r.id).Nodup)
    ∧ (removeRecord [sampleRecord1, sampleRecord2] "3").length + 1
        = ([sampleRecord1, sampleRecord2] : List AnalysisResult).length
    ∧ "3" ∉ (removeRecord [sampleRecord1, sampleRecord2] "3").map (fun r => r.id)
    ∧ removeRecord [sampleRecord1, sampleRecord2] "9" = [sampleRecord1, sampleRecord2] :=
  ⟨by decide,
   ((remove_spec [sampleRecord1, sampleRecord2] "3" (by decide)).1 (by decide)).1,
   ((remove_spec [sampleRecord1, sampleRecord2] "3" (by decide)).1 (by decide)).2,
   (remove_spec [sampleRecord1, sampleRecord2] "9" (by decide)).2.1 (by decide)⟩

/-- A grammar point survives the snapshot round trip. -/
theorem decodeGrammarPoint_serialize (g : GrammarPoint) :
    decodeGrammarPoint (serializeGrammarPoint g) = some g := rfl

/-- A vocabulary item survives the snapshot round trip. -/
theorem decodeVocabularyItem_serialize (v : VocabularyItem) :
    decodeVocabularyItem (serializeVocabularyItem v) = some v := rfl

/-- Element-wise decoders lift to lists. -/
theorem decodeList_map {α : Type} (f : Json → Option α) (g : α → Json)
    (hfg : ∀ a, f (g a) = some a) : ∀ l : List α, decodeList f (l.map g) = some l := by
  intro l
  induction l with
  | nil => rfl
  | cons a t ih => simp [decodeList, hfg a, ih]

/-- One analysis record survives the snapshot round trip. -/
theorem decodeRecord_serialize (r : AnalysisResult) :
    decodeRecord (serializeRecord r) = some r := by
  have h1 := decodeList_map decodeGrammarPoint serializeGrammarPoint
    decodeGrammarPoint_serialize r.grammarPoints
  have h2 := decodeList_map decodeVocabularyItem serializeVocabularyItem
    decodeVocabularyItem_serialize r.vocabulary
  show (decodeList decodeGrammarPoint (r.grammarPoints.map serializeGrammarPoint)).bind
      (fun gs =>
        (decodeList decodeVocabularyItem (r.vocabulary.map serializeVocabularyItem)).bind
          fun vs =>
            some { id := r.id, timestamp := r.timestamp, original := r.original,
                   translation := r.translation, language := r.language,
                   grammarPoints := gs, vocabulary := vs }) = some r
  rw [h1, h2]
  rfl

/-- Claim C8: the persistence format round-trips exactly — deserializing the
serialized snapshot of any history yields the same records, in the same
order, with all field values intact. -/
theorem snapshot_roundtrip (hist : List AnalysisResult) :
    deserializeHistory (serializeHistory hist) = some hist :=
  decodeList_map decodeRecord serializeRecord decodeRecord_serialize hist

/-- The dedupe fold keeps the word list duplicate-free. -/
theorem dedupe_go_nodup (l : List VocabEntry) :
    ∀ acc : List VocabEntry, ((acc.map fun v => v.word).Nodup) →
      (((l.foldl dedupeStep acc).map fun v => v.word).Nodup) := by
  induction l with
  | nil => intro acc h; exact h
  | cons c t ih =>
      intro acc h
      rw [List.foldl_cons]
      apply ih
      by_cases hc : (acc.any fun v => v.word == c.word) = true
      · rw [dedupeStep, if_pos hc]; exact h
      · rw [dedupeStep, if_neg hc]
        rw [List.map_append]
        refine ((List.perm_append_singleton c.word (acc.map fun v => v.word)).nodup_iff).mpr ?_
        rw [List.nodup_cons]
        refine ⟨?_, h⟩
        intro hmem
        apply hc
        rw [List.any_eq_true]
        rcases List.mem_map.mp hmem with ⟨v, hv, hveq⟩
        exact ⟨v, hv, by simpa using hveq⟩

/-- Membership after the dedupe fold: an entry survives exactly when it is
already in the accumulator, or its word is new to the accumulator and the
entry is the first occurrence of its word in the remaining input. -/
theorem dedupe_go_mem (l : List VocabEntry) :
    ∀ (acc : List VocabEntry) (x : VocabEntry),
      x ∈ l.foldl dedupeStep acc ↔
        x ∈ acc ∨ ((∀ a ∈ acc, a.word ≠ x.word)
          ∧ l.find? (fun v => v.word == x.word) = some x) := by
  induction l with
  | nil => intro acc x; simp
  | cons c t ih =>
      intro acc x
      rw [List.foldl_cons]
      by_cases hc : (acc.any fun v => v.word == c.word) = true
      · rw [dedupeStep, if_pos hc, ih]
        rcases List.any_eq_true.mp hc with ⟨a0, ha0, ha0w⟩
        have ha0w' : a0.word = c.word := by simpa using ha0w
        by_cases hw : c.word = x.word
        · have hacc : ¬ ∀ a ∈ acc, a.word ≠ x.word := fun hall =>
            hall a0 ha0 (ha0w'.trans hw)
          rw [List.find?_cons_of_pos _ (by simpa using hw)]
          constructor
          · rintro (hx | ⟨hok, _⟩)
            · exact Or.inl hx
            · exact absurd hok hacc
          · rintro (hx | ⟨hok, _⟩)
            · exact Or.inl hx
            · exact absurd hok hacc
        · rw [List.find?_cons_of_neg _ (by simpa using hw)]
      · rw [dedupeStep, if_neg hc, ih]
        have haccOK : ∀ a ∈ acc, a.word ≠ c.word := by
          intro a ha hcon
          exact hc (List.any_eq_true.mpr ⟨a, ha, by simpa using hcon⟩)
        by_cases hx : x = c
        · subst hx
          rw [List.find?_cons_of_pos _ (by simp)]
          constructor
          · intro _
            exact Or.inr ⟨haccOK, rfl⟩
          · intro _
            exact Or.inl (List.mem_append.mpr (Or.inr (List.mem_singleton.mpr rfl)))
        · by_cases hw : c.word = x.word
          · rw [List.find?_cons_of_pos _ (by simpa using hw)]
            constructor
            · rintro (hmem | ⟨hall, _⟩)
              · rcases List.mem_append.mp hmem with h | h
                · exact Or.inl h
                · exact absurd (List.mem_singleton.mp h) hx
              · exact absurd hw
                  (hall c (List.mem_append.mpr (Or.inr (List.mem_singleton.mpr rfl))))
            · rintro (hmem | ⟨hall, hsome⟩)
              · exact Or.inl (List.mem_append.mpr (Or.inl hmem))
              · exact absurd (Option.some.inj hsome) (Ne.symm hx)
          · rw [List.find?_cons_of_neg _ (by simpa using hw)]
            constructor
            · rintro (hmem | ⟨hall, hfind⟩)
              · rcases List.mem_append.mp hmem with h | h
                · exact Or.inl h
                · exact absurd (List.mem_singleton.mp h) hx
              · exact Or.inr ⟨fun a ha => hall a (List.mem_append.mpr (Or.inl ha)), hfind⟩
            · rintro (hmem | ⟨hall, hfind⟩)
              · exact Or.inl (List.mem_append.mpr (Or.inl hmem))
              · refine Or.inr ⟨?_, hfind⟩
                intro a ha
                rcases List.mem_append.mp ha with h | h
                · exact hall a h
                · rw [List.mem_singleton.mp h]
                  exact hw

/-- An entry is retained by the dedupe reduce exactly when it is the first
occurrence of its word in the flattened input. -/
theorem dedupeVocab_mem (l : List VocabEntry) (x : VocabEntry) :
    x ∈ dedupeVocab l ↔ l.find? (fun v => v.word == x.word) = some x := by
  rw [dedupeVocab, dedupe_go_mem]
  simp

/-- The concrete word comparator is transitive. -/
theorem strLe_trans (a b c : String) (hab : strLe a b = true) (hbc : strLe b c = true) :
    strLe a c = true := by
  simp only [strLe, decide_eq_true_eq] at *
  exact le_trans hab hbc

/-- The concrete word comparator is total. -/
theorem strLe_total (a b : String) : (strLe a b || strLe b a) = true := by
  simp only [strLe, Bool.or_eq_true, decide_eq_true_eq]
  exact le_total a b

/-- Claim C5: for any comparator `le` (the Boolean order induced by the locale
comparator) that is transitive and total, the vocabulary index built from a
newest-first record list has pairwise-distinct words, is sorted by word
under the comparator, and contains exactly the first occurrence of each
word in the flattened newest-first vocabulary — so a word shared by two
records keeps the data of the newest record containing it. -/
theorem vocab_index_spec (le : String → String → Bool)
    (htrans : ∀ a b c, le a b = true → le b c = true → le a c = true)
    (htot : ∀ a b, (le a b || le b a) = true) (items : List AnalysisResult) :
    ((allVocab le items).map fun v => v.word).Nodup
    ∧ List.Pairwise (fun a b => le a.word b.word = true) (allVocab le items)
    ∧ ∀ e, e ∈ allVocab le items ↔
        (tagVocab items).find? (fun v => v.word == e.word) = some e := by
  refine ⟨?_, ?_, ?_⟩
  · have hp : (allVocab le items).Perm (dedupeVocab (tagVocab items)) :=
      List.mergeSort_perm (dedupeVocab (tagVocab items)) _
    have hnd : ((dedupeVocab (tagVocab items)).map fun v => v.word).Nodup :=
      dedupe_go_nodup (tagVocab items) [] (by simp)
    exact ((hp.map fun v => v.word).nodup_iff).mpr hnd
  · show List.Pairwise _
      ((dedupeVocab (tagVocab items)).mergeSort fun a b => le a.word b.word)
    exact @List.sorted_mergeSort VocabEntry (fun a b => le a.word b.word)
      (fun a b c hab hbc => htrans _ _ _ hab hbc) (fun a b => htot _ _)
      (dedupeVocab (tagVocab items))
  · intro e
    rw [show allVocab le items
        = (dedupeVocab (tagVocab items)).mergeSort (fun a b => le a.word b.word) from rfl]
    rw [(List.mergeSort_perm (dedupeVocab (tagVocab items))
        (fun a b => le a.word b.word)).mem_iff]
    exact dedupeVocab_mem (tagVocab items) e

/-- Witness for the C5 theorem on two concrete records sharing the word
"neko": the built index has duplicate-free words and the retained "neko"
entry is the first occurrence in the flattened newest-first vocabulary,
namely the one from the newer record. -/
theorem vocab_index_spec_witness :
    (((allVocab strLe [sampleRecord1, sampleRecord2]).map fun v => v.word).Nodup)
    ∧ (sampleEntryNeko ∈ allVocab strLe [sampleRecord1, sampleRecord2] ↔
        (tagVocab [sampleRecord1, sampleRecord2]).find?
          (fun v => v.word == sampleEntryNeko.word) = some sampleEntryNeko) :=
  ⟨(vocab_index_spec strLe strLe_trans strLe_total [sampleRecord1, sampleRecord2]).1,
   (vocab_index_spec strLe strLe_trans strLe_total [sampleRecord1, sampleRecord2]).2.2
     sampleEntryNeko⟩

/-- `leadsWith` decides occurrence of the pattern at the start of the list. -/
theorem leadsWith_iff : ∀ (pat l : List Char), leadsWith pat l = true ↔ ∃ t, pat ++ t = l := by
  intro pat
  induction pat with
  | nil =>
      intro l
      simp [leadsWith]
  | cons p ps ih =>
      intro l
      cases l with
      | nil =>
          simp [leadsWith]
      | cons c cs =>
          simp only [leadsWith, Bool.and_eq_true, beq_iff_eq, ih, List.cons_append]
          constructor
          · rintro ⟨rfl, t, rfl⟩
            exact ⟨t, rfl⟩
          · rintro ⟨t, h⟩
            injection h with h1 h2
            exact ⟨h1, t, h2⟩

/-- `includesList` decides contiguous occurrence of the pattern anywhere in
the list: the JS `includes` semantics. -/
theorem includesList_iff : ∀ (pat l : List Char),
    includesList pat l = true ↔ ∃ s t, s ++ pat ++ t = l := by
  intro pat l
  induction l with
  | nil =>
      cases pat <;> simp [includesList, List.isEmpty]
  | cons c cs ih =>
      simp only [includesList, Bool.or_eq_true, ih, leadsWith_iff]
      constructor
      · rintro (⟨t, h⟩ | ⟨s, t, rfl⟩)
        · exact ⟨[], t, by simpa using h⟩
        · exact ⟨c :: s, t, rfl⟩
      · rintro ⟨s, t, h⟩
        cases s with
        | nil =>
            left
            exact ⟨t, by simpa using h⟩
        | cons s0 ss =>
            right
            rw [List.cons_append, List.cons_append] at h
            injection h with h1 h2
            subst h1
            exact ⟨ss, t, by simpa using h2⟩

/-- The empty pattern occurs in every list. -/
theorem includesList_nil_pat : ∀ l : List Char, includesList [] l = true := by
  intro l
  cases l <;> simp [includesList, leadsWith, List.isEmpty]

/-- Claim C6: filtering with the empty search term returns all entries unchanged
and in order; membership in the filtered list is exactly membership in the
input together with a case-insensitive contiguous-substring occurrence of
the term in the word, the meaning or the reading; in particular a term
differing from the word only in letter case matches the entry. -/
theorem filter_spec (entries : List VocabEntry) :
    filterVocab entries "" = entries
    ∧ (∀ term v, v ∈ filterVocab entries term ↔
        v ∈ entries ∧
          ((∃ s t, s ++ (lowerStr term).data ++ t = (lowerStr v.word).data)
           ∨ (∃ s t, s ++ (lowerStr term).data ++ t = (lowerStr v.meaning).data)
           ∨ (∃ s t, s ++ (lowerStr term).data ++ t = (lowerStr v.reading).data)))
    ∧ (∀ term v, v ∈ entries → lowerStr term = lowerStr v.word →
        v ∈ filterVocab entries term) := by
  refine ⟨?_, ?_, ?_⟩
  · apply List.filter_eq_self.mpr
    intro v _
    have hempty : (lowerStr "").data = [] := rfl
    simp [matchesTerm, strIncludes, hempty, includesList_nil_pat]
  · intro term v
    rw [filterVocab, List.mem_filter]
    simp only [matchesTerm, strIncludes, Bool.or_eq_true, includesList_iff]
    rw [or_assoc]
  · intro term v hv heq
    rw [filterVocab, List.mem_filter]
    refine ⟨hv, ?_⟩
    have : includesList (lowerStr term).data (lowerStr v.word).data = true := by
      rw [includesList_iff]
      exact ⟨[], [], by simp [heq]⟩
    simp [matchesTerm, strIncludes, this]

/-- Witness for the C6 theorem: the empty term keeps a concrete entry list
unchanged, and the upper-case term "NEKO" matches the entry whose word is
"neko". -/
theorem filter_spec_witness :
    filterVocab [sampleEntryNeko] "" = [sampleEntryNeko]
    ∧ sampleEntryNeko ∈ filterVocab [sampleEntryNeko] "NEKO" :=
  ⟨(filter_spec [sampleEntryNeko]).1,
   (filter_spec [sampleEntryNeko]).2.2 "NEKO" sampleEntryNeko (by decide) (by decide)⟩

end LingoLog
